import Mathlib

/-!
Verification of the DexAggregator backend against its natural-language
specification.  The definitions below are shallow embeddings of the
TypeScript source: big integers (`bigint`) become `Nat`/`Int`, JavaScript
`Number` values are modelled as exact rationals (`ℚ`), thrown exceptions
become `Except String`, and chain reads appear as explicit parameters or
as entries of a call trace.
-/

/-- Protocol tag of a quote, source `DexQuote.dex : 'V2' | 'V3'`
(backend/src/adapters/DexAdapter.ts). -/
inductive DexKind
  | V2
  | V3
deriving DecidableEq

/-- Quote returned by a venue adapter, source interface `DexQuote`
(backend/src/adapters/DexAdapter.ts).  `amountOut` is a chain `uint256`
(`bigint` in the source), `priceImpact` a JavaScript number modelled as an
exact rational.  The optional `priceImpactWarning` record is omitted: no
claim mentions it. -/
structure DexQuote where
  dex : DexKind
  dexName : String
  amountOut : Nat
  priceImpact : ℚ
  gasEstimate : Option Nat
  feeTier : Option Nat
  poolAddress : Option String
deriving DecidableEq

/-- Savings block of an aggregated quote, source interface
`AggregatedQuote.savings` (services/aggregatorService.ts). -/
structure Savings where
  percentage : ℚ
  absoluteAmount : Int
deriving DecidableEq

/-- Aggregated result, source interface `AggregatedQuote`
(services/aggregatorService.ts).  The token metadata, input amount and
recommendation string are not modelled: no claim constrains them
(token-metadata chain calls are modelled separately as a call trace). -/
structure AggregatedQuote where
  bestQuote : DexQuote
  allQuotes : List DexQuote
  savings : Savings
deriving DecidableEq

/-- Source `AggregatorService.getAggregatedQuote` line
`allQuotes.reduce((best, current) => current.amountOut > best.amountOut ? current : best)`:
JavaScript `reduce` without an initial value starts from the head and folds
over the tail. -/
def selectBest (h : DexQuote) (t : List DexQuote) : DexQuote :=
  t.foldl (fun best current =>
    if current.amountOut > best.amountOut then current else best) h

/-- Source `AggregatorService.getAggregatedQuote` line
`allQuotes.reduce((worst, current) => current.amountOut < worst.amountOut ? current : worst)`. -/
def selectWorst (h : DexQuote) (t : List DexQuote) : DexQuote :=
  t.foldl (fun worst current =>
    if current.amountOut < worst.amountOut then current else worst) h

/-- Source `AggregatorService.getAggregatedQuote` (services/aggregatorService.ts):
empty merged list throws `No liquidity found ...`; otherwise best and worst
are selected by the two `reduce` calls, `savingsAbsolute` is the `bigint`
difference, and `savingsPercentage` is
`Number(savingsAbsolute * 10000n / worstQuote.amountOut) / 100` — a
truncating `bigint` division (hence `Int.tdiv`) followed by an exact
division by 100.  A zero worst amount makes the `bigint` division throw a
`RangeError` in JavaScript, modelled by the error branch. -/
def getAggregatedQuote (quotes : List DexQuote) : Except String AggregatedQuote :=
  match quotes with
  | [] => .error "No liquidity found for this token pair on any DEX"
  | h :: t =>
    let bestQuote := selectBest h t
    let worstQuote := selectWorst h t
    if worstQuote.amountOut = 0 then .error "Division by zero"
    else
      let savingsAbsolute : Int := (bestQuote.amountOut : Int) - (worstQuote.amountOut : Int)
      let savingsPercentage : ℚ :=
        (((savingsAbsolute * 10000).tdiv (worstQuote.amountOut : Int) : Int) : ℚ) / 100
      .ok { bestQuote := bestQuote
            allQuotes := quotes
            savings := { percentage := savingsPercentage, absoluteAmount := savingsAbsolute } }

lemma selectBest_nil (h : DexQuote) : selectBest h [] = h := rfl

lemma selectBest_cons (h c : DexQuote) (t : List DexQuote) :
    selectBest h (c :: t) =
      selectBest (if c.amountOut > h.amountOut then c else h) t := rfl

lemma selectWorst_nil (h : DexQuote) : selectWorst h [] = h := rfl

lemma selectWorst_cons (h c : DexQuote) (t : List DexQuote) :
    selectWorst h (c :: t) =
      selectWorst (if c.amountOut < h.amountOut then c else h) t := rfl

lemma selectBest_le_init (t : List DexQuote) : ∀ h : DexQuote,
    h.amountOut ≤ (selectBest h t).amountOut := by
  induction t with
  | nil => intro h; rw [selectBest_nil]
  | cons c t ih =>
    intro h
    rw [selectBest_cons]
    by_cases hc : c.amountOut > h.amountOut
    · rw [if_pos hc]
      exact le_trans (le_of_lt hc) (ih c)
    · rw [if_neg hc]
      exact ih h

lemma selectBest_mem (t : List DexQuote) : ∀ h : DexQuote,
    selectBest h t ∈ h :: t := by
  induction t with
  | nil => intro h; rw [selectBest_nil]; exact List.mem_cons_self _ _
  | cons c t ih =>
    intro h
    rw [selectBest_cons]
    by_cases hc : c.amountOut > h.amountOut
    · rw [if_pos hc]
      exact List.mem_cons_of_mem _ (ih c)
    · rw [if_neg hc]
      rcases List.mem_cons.mp (ih h) with h1 | h1
      · rw [h1]; exact List.mem_cons_self _ _
      · exact List.mem_cons_of_mem _ (List.mem_cons_of_mem _ h1)

lemma selectBest_ge (t : List DexQuote) : ∀ h : DexQuote,
    ∀ q ∈ h :: t, q.amountOut ≤ (selectBest h t).amountOut := by
  induction t with
  | nil =>
    intro h q hq
    rcases List.mem_cons.mp hq with h1 | h1
    · rw [h1, selectBest_nil]
    · cases h1
  | cons c t ih =>
    intro h q hq
    rw [selectBest_cons]
    by_cases hc : c.amountOut > h.amountOut
    · rw [if_pos hc]
      rcases List.mem_cons.mp hq with h1 | h1
      · rw [h1]; exact le_trans (le_of_lt hc) (selectBest_le_init t c)
      · exact ih c q h1
    · rw [if_neg hc]
      rcases List.mem_cons.mp hq with h1 | h1
      · rw [h1]; exact selectBest_le_init t h
      · rcases List.mem_cons.mp h1 with h2 | h2
        · rw [h2]; exact le_trans (not_lt.mp hc) (selectBest_le_init t h)
        · exact ih h q (List.mem_cons_of_mem _ h2)

lemma selectWorst_ge_init (t : List DexQuote) : ∀ h : DexQuote,
    (selectWorst h t).amountOut ≤ h.amountOut := by
  induction t with
  | nil => intro h; rw [selectWorst_nil]
  | cons c t ih =>
    intro h
    rw [selectWorst_cons]
    by_cases hc : c.amountOut < h.amountOut
    · rw [if_pos hc]
      exact le_trans (ih c) (le_of_lt hc)
    · rw [if_neg hc]
      exact ih h

lemma selectWorst_mem (t : List DexQuote) : ∀ h : DexQuote,
    selectWorst h t ∈ h :: t := by
  induction t with
  | nil => intro h; rw [selectWorst_nil]; exact List.mem_cons_self _ _
  | cons c t ih =>
    intro h
    rw [selectWorst_cons]
    by_cases hc : c.amountOut < h.amountOut
    · rw [if_pos hc]
      exact List.mem_cons_of_mem _ (ih c)
    · rw [if_neg hc]
      rcases List.mem_cons.mp (ih h) with h1 | h1
      · rw [h1]; exact List.mem_cons_self _ _
      · exact List.mem_cons_of_mem _ (List.mem_cons_of_mem _ h1)

lemma selectWorst_le (t : List DexQuote) : ∀ h : DexQuote,
    ∀ q ∈ h :: t, (selectWorst h t).amountOut ≤ q.amountOut := by
  induction t with
  | nil =>
    intro h q hq
    rcases List.mem_cons.mp hq with h1 | h1
    · rw [h1, selectWorst_nil]
    · cases h1
  | cons c t ih =>
    intro h q hq
    rw [selectWorst_cons]
    by_cases hc : c.amountOut < h.amountOut
    · rw [if_pos hc]
      rcases List.mem_cons.mp hq with h1 | h1
      · rw [h1]; exact le_trans (selectWorst_ge_init t c) (le_of_lt hc)
      · exact ih c q h1
    · rw [if_neg hc]
      rcases List.mem_cons.mp hq with h1 | h1
      · rw [h1]; exact selectWorst_ge_init t h
      · rcases List.mem_cons.mp h1 with h2 | h2
        · rw [h2]; exact le_trans (selectWorst_ge_init t h) (not_lt.mp hc)
        · exact ih h q (List.mem_cons_of_mem _ h2)

/-- C1: For every aggregated quote produced by
`AggregatorService.getAggregatedQuote` from a non-empty merged quote list,
the returned `bestQuote` is an element of `allQuotes` and its `amountOut`
equals the maximum `amountOut` over `allQuotes`. -/
theorem aggregated_best_is_member_and_max (quotes : List DexQuote)
    (agg : AggregatedQuote) (h : getAggregatedQuote quotes = .ok agg) :
    agg.bestQuote ∈ agg.allQuotes ∧
      (∀ q ∈ agg.allQuotes, q.amountOut ≤ agg.bestQuote.amountOut) ∧
      (agg.allQuotes.map DexQuote.amountOut).maximum =
        (agg.bestQuote.amountOut : WithBot Nat) := by
  match quotes with
  | [] => simp [getAggregatedQuote] at h
  | q :: t =>
    simp only [getAggregatedQuote] at h
    by_cases hz : (selectWorst q t).amountOut = 0
    · simp [hz] at h
    · simp only [if_neg hz, Except.ok.injEq] at h
      subst h
      refine ⟨selectBest_mem t q, selectBest_ge t q, ?_⟩
      refine List.maximum_eq_coe_iff.mpr ⟨?_, ?_⟩
      · exact List.mem_map_of_mem DexQuote.amountOut (selectBest_mem t q)
      · intro a ha
        rcases List.mem_map.mp ha with ⟨r, hr, rfl⟩
        exact selectBest_ge t q r hr

/-- Concrete sample quotes used by witnesses and counterexamples. -/
def sampleQuoteA : DexQuote :=
  { dex := .V2, dexName := "Hammy Swap", amountOut := 1000, priceImpact := 2,
    gasEstimate := none, feeTier := none, poolAddress := some "0x1111" }

def sampleQuoteB : DexQuote :=
  { dex := .V3, dexName := "Surge Dex", amountOut := 2000, priceImpact := 1,
    gasEstimate := some 150000, feeTier := some 500, poolAddress := some "0x2222" }

instance : DecidableEq (Except String AggregatedQuote) := fun a b =>
  match a, b with
  | .ok x, .ok y =>
    if h : x = y then .isTrue (by rw [h]) else .isFalse (by simp [h])
  | .error x, .error y =>
    if h : x = y then .isTrue (by rw [h]) else .isFalse (by simp [h])
  | .ok _, .error _ => .isFalse (by simp)
  | .error _, .ok _ => .isFalse (by simp)

/-- Aggregated result of `getAggregatedQuote [sampleQuoteA, sampleQuoteB]`,
spelled out for witnesses and counterexamples. -/
def sampleAgg : AggregatedQuote :=
  { bestQuote := sampleQuoteB
    allQuotes := [sampleQuoteA, sampleQuoteB]
    savings := { percentage := 100, absoluteAmount := 1000 } }

/-- C4: For every aggregated quote with at least one surviving quote,
`savings.absoluteAmount` equals `bestQuote.amountOut` minus the minimum
`amountOut` over `allQuotes`, `savings.percentage` equals
`(best − worst) / worst · 100` taken to two decimals (the `bigint` division
truncates, so the exact percentage is floored at the second decimal) and is
non-negative, and when exactly one quote survives both savings values are
zero. -/
theorem aggregated_savings_correct (quotes : List DexQuote) (agg : AggregatedQuote)
    (h : getAggregatedQuote quotes = .ok agg) :
    ∃ w : Nat, (agg.allQuotes.map DexQuote.amountOut).minimum = (w : WithBot Nat) ∧
      agg.savings.absoluteAmount = (agg.bestQuote.amountOut : Int) - (w : Int) ∧
      agg.savings.percentage =
        (⌊(((agg.bestQuote.amountOut : ℚ) - (w : ℚ)) / (w : ℚ) * 100) * 100⌋ : ℚ) / 100 ∧
      0 ≤ agg.savings.percentage ∧
      (agg.allQuotes.length = 1 →
        agg.savings.absoluteAmount = 0 ∧ agg.savings.percentage = 0) := by
  match quotes with
  | [] => simp [getAggregatedQuote] at h
  | q :: t =>
    simp only [getAggregatedQuote] at h
    by_cases hz : (selectWorst q t).amountOut = 0
    · simp [hz] at h
    · simp only [if_neg hz, Except.ok.injEq] at h
      subst h
      refine ⟨(selectWorst q t).amountOut, ?_, rfl, ?_, ?_, ?_⟩
      · refine List.minimum_eq_coe_iff.mpr ⟨?_, ?_⟩
        · exact List.mem_map_of_mem DexQuote.amountOut (selectWorst_mem t q)
        · intro a ha
          rcases List.mem_map.mp ha with ⟨r, hr, rfl⟩
          exact selectWorst_le t q r hr
      · have hw : 0 < (selectWorst q t).amountOut := Nat.pos_of_ne_zero hz
        have hle : (selectWorst q t).amountOut ≤ (selectBest q t).amountOut :=
          selectWorst_le t q _ (selectBest_mem t q)
        set B := (selectBest q t).amountOut with hB
        set W := (selectWorst q t).amountOut with hW
        have hsa : (0 : Int) ≤ ((B : Int) - W) * 10000 := by
          have : (W : Int) ≤ (B : Int) := Int.ofNat_le.mpr hle
          nlinarith
        have h1 : (((B : Int) - W) * 10000).tdiv (W : Int) =
            (((B : Int) - W) * 10000) / (W : Int) :=
          Int.tdiv_eq_ediv hsa (Int.ofNat_nonneg W)
        have h2 : ⌊((((B : Int) - W) * 10000 : Int) : ℚ) / (W : ℚ)⌋ =
            (((B : Int) - W) * 10000) / (W : Int) :=
          Rat.floor_intCast_div_natCast (((B : Int) - W) * 10000) W
        have h3 : (((B : ℚ) - (W : ℚ)) / (W : ℚ) * 100) * 100 =
            ((((B : Int) - W) * 10000 : Int) : ℚ) / (W : ℚ) := by
          push_cast
          ring
        show ((((B : Int) - W) * 10000).tdiv (W : Int) : ℚ) / 100 = _
        rw [h1, h3, h2]
      · have h0 : (0 : Int) ≤
            (((selectBest q t).amountOut : Int) - ((selectWorst q t).amountOut : Int)) * 10000 := by
          have hle : (selectWorst q t).amountOut ≤ (selectBest q t).amountOut :=
            selectWorst_le t q _ (selectBest_mem t q)
          have : ((selectWorst q t).amountOut : Int) ≤ ((selectBest q t).amountOut : Int) :=
            Int.ofNat_le.mpr hle
          nlinarith
        have := Int.tdiv_nonneg h0 (Int.ofNat_nonneg (selectWorst q t).amountOut)
        show (0 : ℚ) ≤ (_ : ℚ) / 100
        positivity
      · intro hlen
        have ht : t = [] := by
          cases t with
          | nil => rfl
          | cons a l => simp at hlen
        subst ht
        constructor
        · show ((selectBest q []).amountOut : Int) - ((selectWorst q []).amountOut : Int) = 0
          rw [selectBest_nil, selectWorst_nil, sub_self]
        · show (((((selectBest q []).amountOut : Int) -
              ((selectWorst q []).amountOut : Int)) * 10000).tdiv
                ((selectWorst q []).amountOut : Int) : ℚ) / 100 = 0
          rw [selectBest_nil, selectWorst_nil, sub_self]
          simp [Int.zero_tdiv]
/-- Witness for C1: the theorem applied to the concrete two-quote list. -/
theorem aggregated_best_is_member_and_max_witness :
    getAggregatedQuote [sampleQuoteA, sampleQuoteB] = .ok sampleAgg ∧
      sampleAgg.bestQuote ∈ sampleAgg.allQuotes :=
  ⟨by with_unfolding_all rfl,
   (aggregated_best_is_member_and_max [sampleQuoteA, sampleQuoteB] sampleAgg
     (by with_unfolding_all rfl)).1⟩

/-- Witness for C4: the theorem applied to the concrete two-quote list. -/
theorem aggregated_savings_correct_witness :
    getAggregatedQuote [sampleQuoteA, sampleQuoteB] = .ok sampleAgg ∧
      0 ≤ sampleAgg.savings.percentage := by
  refine ⟨by with_unfolding_all rfl, ?_⟩
  obtain ⟨w, _, _, _, hpos, _⟩ :=
    aggregated_savings_correct [sampleQuoteA, sampleQuoteB] sampleAgg
      (by with_unfolding_all rfl)
  exact hpos

lemma selectBest_first_max (t : List DexQuote) : ∀ h : DexQuote,
    ∃ i, (h :: t).get? i = some (selectBest h t) ∧
      ∀ j, j < i → ∀ q, (h :: t).get? j = some q →
        q.amountOut < (selectBest h t).amountOut := by
  induction t with
  | nil =>
    intro h
    refine ⟨0, by rw [selectBest_nil]; rfl, ?_⟩
    intro j hj
    exact absurd hj (Nat.not_lt_zero j)
  | cons c t ih =>
    intro h
    rw [selectBest_cons]
    by_cases hc : c.amountOut > h.amountOut
    · rw [if_pos hc]
      obtain ⟨i, hi, hstrict⟩ := ih c
      refine ⟨i + 1, hi, ?_⟩
      intro j hj q hq
      match j with
      | 0 =>
        have hqh : q = h := by
          simp only [List.get?] at hq
          exact (Option.some.injEq _ _).mp hq.symm
        rw [hqh]
        exact lt_of_lt_of_le hc (selectBest_le_init t c)
      | j + 1 =>
        exact hstrict j (by omega) q hq
    · rw [if_neg hc]
      obtain ⟨i, hi, hstrict⟩ := ih h
      match i, hi with
      | 0, hi =>
        refine ⟨0, hi, ?_⟩
        intro j hj
        exact absurd hj (Nat.not_lt_zero j)
      | i + 1, hi =>
        refine ⟨i + 2, hi, ?_⟩
        have hhlt : h.amountOut < (selectBest h t).amountOut :=
          hstrict 0 (Nat.succ_pos i) h rfl
        intro j hj q hq
        match j with
        | 0 =>
          have hqh : q = h := by
            simp only [List.get?] at hq
            exact (Option.some.injEq _ _).mp hq.symm
          rw [hqh]; exact hhlt
        | 1 =>
          have hqc : q = c := by
            simp only [List.get?] at hq
            exact (Option.some.injEq _ _).mp hq.symm
          rw [hqc]
          exact lt_of_le_of_lt (not_lt.mp hc) hhlt
        | j + 2 =>
          exact hstrict (j + 1) (by omega) q hq

lemma selectWorst_first_min (t : List DexQuote) : ∀ h : DexQuote,
    ∃ i, (h :: t).get? i = some (selectWorst h t) ∧
      ∀ j, j < i → ∀ q, (h :: t).get? j = some q →
        (selectWorst h t).amountOut < q.amountOut := by
  induction t with
  | nil =>
    intro h
    refine ⟨0, by rw [selectWorst_nil]; rfl, ?_⟩
    intro j hj
    exact absurd hj (Nat.not_lt_zero j)
  | cons c t ih =>
    intro h
    rw [selectWorst_cons]
    by_cases hc : c.amountOut < h.amountOut
    · rw [if_pos hc]
      obtain ⟨i, hi, hstrict⟩ := ih c
      refine ⟨i + 1, hi, ?_⟩
      intro j hj q hq
      match j with
      | 0 =>
        have hqh : q = h := by
          simp only [List.get?] at hq
          exact (Option.some.injEq _ _).mp hq.symm
        rw [hqh]
        exact lt_of_le_of_lt (selectWorst_ge_init t c) hc
      | j + 1 =>
        exact hstrict j (by omega) q hq
    · rw [if_neg hc]
      obtain ⟨i, hi, hstrict⟩ := ih h
      match i, hi with
      | 0, hi =>
        refine ⟨0, hi, ?_⟩
        intro j hj
        exact absurd hj (Nat.not_lt_zero j)
      | i + 1, hi =>
        refine ⟨i + 2, hi, ?_⟩
        have hhlt : (selectWorst h t).amountOut < h.amountOut :=
          hstrict 0 (Nat.succ_pos i) h rfl
        intro j hj q hq
        match j with
        | 0 =>
          have hqh : q = h := by
            simp only [List.get?] at hq
            exact (Option.some.injEq _ _).mp hq.symm
          rw [hqh]; exact hhlt
        | 1 =>
          have hqc : q = c := by
            simp only [List.get?] at hq
            exact (Option.some.injEq _ _).mp hq.symm
          rw [hqc]
          exact lt_of_lt_of_le hhlt (not_lt.mp hc)
        | j + 2 =>
          exact hstrict (j + 1) (by omega) q hq

/-- C3 (counterexample): `getAggregatedQuote` applies no ranking.  With the
merged list `[sampleQuoteA, sampleQuoteB]` (amounts 1000 then 2000) the
returned `allQuotes` keeps that order, so it is not sorted by `amountOut`
descending and its first element is not `bestQuote`. -/
theorem aggregated_allQuotes_not_ranked_counterexample :
    getAggregatedQuote [sampleQuoteA, sampleQuoteB] = .ok sampleAgg ∧
      sampleAgg.allQuotes.map DexQuote.amountOut = [1000, 2000] ∧
      sampleAgg.allQuotes.head?.map DexQuote.amountOut = some 1000 ∧
      sampleAgg.bestQuote.amountOut = 2000 ∧
      ¬ (1000 : Nat) ≥ 2000 := by
  exact ⟨by with_unfolding_all rfl, by decide, by decide, by decide, by decide⟩

/-- C3 (amended): `getAggregatedQuote` performs no sort — `allQuotes` is the
merged quote list exactly as received (adapter contribution order), no
tie-breaking by price impact, fee tier or venue name exists anywhere, and
`bestQuote` is the earliest quote attaining the maximal `amountOut` (hence
the first element of `allQuotes` only when that element is maximal). -/
theorem aggregated_allQuotes_order_preserved_best_first_max
    (quotes : List DexQuote) (agg : AggregatedQuote)
    (h : getAggregatedQuote quotes = .ok agg) :
    agg.allQuotes = quotes ∧
      ∃ i, agg.allQuotes.get? i = some agg.bestQuote ∧
        ∀ j, j < i → ∀ q, agg.allQuotes.get? j = some q →
          q.amountOut < agg.bestQuote.amountOut := by
  match quotes with
  | [] => simp [getAggregatedQuote] at h
  | q :: t =>
    simp only [getAggregatedQuote] at h
    by_cases hz : (selectWorst q t).amountOut = 0
    · simp [hz] at h
    · simp only [if_neg hz, Except.ok.injEq] at h
      subst h
      exact ⟨rfl, selectBest_first_max t q⟩

/-- Witness for the amended C3 at a concrete two-quote list. -/
theorem aggregated_allQuotes_order_preserved_best_first_max_witness :
    getAggregatedQuote [sampleQuoteA, sampleQuoteB] = .ok sampleAgg ∧
      sampleAgg.allQuotes = [sampleQuoteA, sampleQuoteB] :=
  ⟨by with_unfolding_all rfl,
   (aggregated_allQuotes_order_preserved_best_first_max
     [sampleQuoteA, sampleQuoteB] sampleAgg (by with_unfolding_all rfl)).1⟩

/-- Source `V3DexAdapter.DEFAULT_FEE_TIERS` (adapters/V3DexAdapter.ts):
fee tiers queried in the order 100, 500, 3000, 10000. -/
def DEFAULT_FEE_TIERS : List Nat := [100, 500, 3000, 10000]

/-- Model of the merge performed by `AggregatorService.getAllQuotes`:
the constructor registers the V2 adapter (from `getV2Dexes()`) before the
V3 adapter (from `getV3Dexes()`, configuration order in `DEXES`), each
adapter contributes its own list (`V2DexAdapter.getAllQuotes` at most one
quote, `V3DexAdapter.getAllQuotes` one per surviving tier in
`DEFAULT_FEE_TIERS` order via `Promise.all` + filter), and `results.flat()`
concatenates them in that order. -/
def mergedQuotes (v2Quote : Option DexQuote) (v3QuoteAtTier : Nat → Option DexQuote) :
    List DexQuote :=
  v2Quote.toList ++ DEFAULT_FEE_TIERS.filterMap v3QuoteAtTier

/-- C10: When several surviving quotes share the maximal `amountOut`,
`getAggregatedQuote` selects as `bestQuote` the earliest such quote in the
merged list — V2 venue before V3 venue, V3 tiers in order 100, 500, 3000,
10000 — because the `reduce` uses a strict greater-than comparison;
symmetrically the worst quote (used for the savings figures) is the
earliest minimal one. -/
theorem merged_reduce_selects_earliest_extremes
    (v2Quote : Option DexQuote) (v3QuoteAtTier : Nat → Option DexQuote)
    (agg : AggregatedQuote)
    (h : getAggregatedQuote (mergedQuotes v2Quote v3QuoteAtTier) = .ok agg) :
    agg.allQuotes = v2Quote.toList ++ [100, 500, 3000, 10000].filterMap v3QuoteAtTier ∧
      (∃ i, agg.allQuotes.get? i = some agg.bestQuote ∧
        ∀ j, j < i → ∀ q, agg.allQuotes.get? j = some q →
          q.amountOut < agg.bestQuote.amountOut) ∧
      (∃ w : DexQuote,
        agg.savings.absoluteAmount = (agg.bestQuote.amountOut : Int) - (w.amountOut : Int) ∧
        (∀ q ∈ agg.allQuotes, w.amountOut ≤ q.amountOut) ∧
        ∃ i, agg.allQuotes.get? i = some w ∧
          ∀ j, j < i → ∀ q, agg.allQuotes.get? j = some q →
            w.amountOut < q.amountOut) := by
  cases hl : mergedQuotes v2Quote v3QuoteAtTier with
  | nil => rw [hl] at h; simp [getAggregatedQuote] at h
  | cons q t =>
    rw [hl] at h
    simp only [getAggregatedQuote] at h
    by_cases hz : (selectWorst q t).amountOut = 0
    · simp [hz] at h
    · simp only [if_neg hz, Except.ok.injEq] at h
      subst h
      refine ⟨hl.symm, selectBest_first_max t q, selectWorst q t, rfl, selectWorst_le t q,
        selectWorst_first_min t q⟩

/-- Concrete tied quotes: the V2 venue and the 100-tier V3 pool both return
`amountOut = 5`. -/
def tieQuoteA : DexQuote :=
  { dex := .V2, dexName := "Hammy Swap", amountOut := 5, priceImpact := 3,
    gasEstimate := none, feeTier := none, poolAddress := some "0x1111" }

def tieQuoteB : DexQuote :=
  { dex := .V3, dexName := "Surge Dex", amountOut := 5, priceImpact := 1,
    gasEstimate := some 150000, feeTier := some 100, poolAddress := some "0x3333" }

def tieAgg : AggregatedQuote :=
  { bestQuote := tieQuoteA
    allQuotes := [tieQuoteA, tieQuoteB]
    savings := { percentage := 0, absoluteAmount := 0 } }

/-- Witness for C10: on a tie (both quotes return 5) the V2 quote, which the
merge places first, is selected as best even though the V3 quote has the
lower price impact. -/
theorem merged_reduce_selects_earliest_extremes_witness :
    getAggregatedQuote
        (mergedQuotes (some tieQuoteA)
          (fun fee => if fee = 100 then some tieQuoteB else none)) = .ok tieAgg ∧
      tieAgg.bestQuote = tieQuoteA ∧
      tieAgg.allQuotes =
        (some tieQuoteA).toList ++
          [100, 500, 3000, 10000].filterMap
            (fun fee => if fee = 100 then some tieQuoteB else none) :=
  ⟨by with_unfolding_all rfl, by decide,
   (merged_reduce_selects_earliest_extremes (some tieQuoteA)
     (fun fee => if fee = 100 then some tieQuoteB else none) tieAgg
     (by with_unfolding_all rfl)).1⟩

/-- Source `getAmountOut` (utils/calculations.ts): the Uniswap-V2 output
formula on `bigint`s.  `amountIn <= 0n` throws `Insufficient input amount`;
a non-positive reserve throws `Insufficient liquidity`; otherwise the
result is `(amountIn·997·reserveOut) / (reserveIn·1000 + amountIn·997)`
with `bigint` division (truncation toward zero, `Int.tdiv`). -/
def getAmountOut (amountIn reserveIn reserveOut : Int) : Except String Int :=
  if amountIn ≤ 0 then .error "Insufficient input amount"
  else if reserveIn ≤ 0 ∨ reserveOut ≤ 0 then .error "Insufficient liquidity"
  else
    let amountInWithFee := amountIn * 997
    let numerator := amountInWithFee * reserveOut
    let denominator := reserveIn * 1000 + amountInWithFee
    .ok (numerator.tdiv denominator)

/-- C2 (counterexample): when the precondition `amountIn > 0` fails the code
does not fail with the insufficient-liquidity error — it throws the distinct
message `Insufficient input amount`. -/
theorem getAmountOut_zero_input_error_counterexample :
    getAmountOut 0 1 1 = .error "Insufficient input amount" ∧
      Except.error (ε := String) (α := Int) "Insufficient input amount" ≠
        Except.error "Insufficient liquidity" := by
  constructor
  · rfl
  · intro hcontra
    have := Except.error.inj hcontra
    simp at this

/-- C2 (amended): under the preconditions `amountIn > 0` and both reserves
positive, `getAmountOut` returns exactly
`floor((amountIn·997·Rout) / (Rin·1000 + amountIn·997))` and the result is
strictly below `Rout`; when `amountIn ≤ 0` it fails with the
insufficient-input-amount error, and when a reserve is non-positive (with
`amountIn > 0`) it fails with the insufficient-liquidity error. -/
theorem getAmountOut_correct (amountIn reserveIn reserveOut : Int) :
    (0 < amountIn → 0 < reserveIn → 0 < reserveOut →
      getAmountOut amountIn reserveIn reserveOut =
          .ok ((amountIn * 997 * reserveOut).tdiv (reserveIn * 1000 + amountIn * 997)) ∧
        (amountIn * 997 * reserveOut).tdiv (reserveIn * 1000 + amountIn * 997) =
          ⌊((amountIn * 997 * reserveOut : Int) : ℚ) /
            ((reserveIn * 1000 + amountIn * 997 : Int) : ℚ)⌋ ∧
        (amountIn * 997 * reserveOut).tdiv (reserveIn * 1000 + amountIn * 997) < reserveOut) ∧
    (amountIn ≤ 0 →
      getAmountOut amountIn reserveIn reserveOut = .error "Insufficient input amount") ∧
    (0 < amountIn → reserveIn ≤ 0 ∨ reserveOut ≤ 0 →
      getAmountOut amountIn reserveIn reserveOut = .error "Insufficient liquidity") := by
  refine ⟨?_, ?_, ?_⟩
  · intro ha hri hro
    have hneg : ¬ amountIn ≤ 0 := not_le.mpr ha
    have hres : ¬ (reserveIn ≤ 0 ∨ reserveOut ≤ 0) := by
      push_neg
      exact ⟨hri, hro⟩
    have hN : (0 : Int) ≤ amountIn * 997 * reserveOut := by positivity
    have hD : (0 : Int) < reserveIn * 1000 + amountIn * 997 := by positivity
    have htdiv : (amountIn * 997 * reserveOut).tdiv (reserveIn * 1000 + amountIn * 997) =
        (amountIn * 997 * reserveOut) / (reserveIn * 1000 + amountIn * 997) :=
      Int.tdiv_eq_ediv hN (le_of_lt hD)
    refine ⟨?_, ?_, ?_⟩
    · simp only [getAmountOut, if_neg hneg, if_neg hres]
    · have hDt : ((reserveIn * 1000 + amountIn * 997).toNat : Int) =
          reserveIn * 1000 + amountIn * 997 := Int.toNat_of_nonneg (le_of_lt hD)
      rw [htdiv, ← hDt, Int.cast_natCast]
      exact (Rat.floor_intCast_div_natCast _ _).symm
    · rw [htdiv]
      rw [Int.ediv_lt_iff_lt_mul hD]
      nlinarith
  · intro ha
    simp only [getAmountOut, if_pos ha]
  · intro ha hres
    have hneg : ¬ amountIn ≤ 0 := not_le.mpr ha
    simp only [getAmountOut, if_neg hneg, if_pos hres]

/-- Witness for the amended C2 at `amountIn = 1000`, reserves `10^6`:
output `996 = floor(997·10^9 / (10^9 + 997·10^3))` and `996 < 10^6`. -/
theorem getAmountOut_correct_witness :
    getAmountOut 1000 1000000 1000000 = .ok 996 ∧ (996 : Int) < 1000000 := by
  obtain ⟨hok, _, hlt⟩ :=
    (getAmountOut_correct 1000 1000000 1000000).1 (by decide) (by decide) (by decide)
  refine ⟨?_, ?_⟩
  · rw [hok]
    rfl
  · have hv : (1000 * 997 * 1000000 : Int).tdiv (1000000 * 1000 + 1000 * 997) = 996 := by
      rfl
    rw [hv] at hlt
    exact hlt

/-- Source `NATIVE_TOKEN_ADDRESS` (config/tokens.ts): sentinel placeholder
address for the chain's native token. -/
def NATIVE_TOKEN_ADDRESS : String := "0xEeeeeEeeeEeEeeEeEeEeeEEEeeeeEeeeeeeeEEeE"

/-- Model of JavaScript `String.prototype.toLowerCase` on the ASCII strings
(hex addresses) the code compares: per-character ASCII lowering. -/
def strToLower (s : String) : String := String.mk (s.data.map Char.toLower)

/-- Source `isNativeToken` (config/tokens.ts):
`tokenAddress.toLowerCase() === NATIVE_TOKEN_ADDRESS.toLowerCase()`. -/
def isNativeToken (tokenAddress : String) : Bool :=
  strToLower tokenAddress == strToLower NATIVE_TOKEN_ADDRESS

/-- Token registry entry, source `MAINNET_TOKENS` values (config/tokens.ts). -/
structure TokenMeta where
  address : String
  symbol : String
  name : String
  decimals : Nat
  isNative : Bool
deriving DecidableEq

/-- Source `MAINNET_TOKENS` (config/tokens.ts), in object insertion order
(the order `Object.values` iterates). -/
def MAINNET_TOKENS : List TokenMeta :=
  [ { address := "0xEeeeeEeeeEeEeeEeEeEeeEEEeeeeEeeeeeeeEEeE", symbol := "DOT",
      name := "Polkadot", decimals := 18, isNative := true },
    { address := "0xF8Eb4Ed0d4CF2bb707c0272F8C6827dEB6e4c0A9", symbol := "WBTC",
      name := "Wrapped Bitcoin", decimals := 8, isNative := false },
    { address := "0xa16148c6Ac9EDe0D82f0c52899e22a575284f131", symbol := "USDC",
      name := "USD Coin", decimals := 6, isNative := false },
    { address := "0x50498dC52bCd3dAeB54B7225A7d2FA8D536F313E", symbol := "WETH",
      name := "Wrapped Ether", decimals := 18, isNative := false },
    { address := "0x9F8CF9c00fac501b3965872f4ed3271f6f4d06fF", symbol := "USDT",
      name := "Tether", decimals := 6, isNative := false },
    { address := "0xDc556F7209C48fC53a8cDf1339c033743A7e3e75", symbol := "DAI",
      name := "Dai Stablecoin", decimals := 18, isNative := false },
    { address := "0xE5747226D2005d7f0865780E8517397de66f2a76", symbol := "FDUSD",
      name := "First Digital USD", decimals := 18, isNative := false } ]

/-- Source `TokenRegistry.getByAddress` (config/tokens.ts): lowercase the
query, then `find` the first token whose lowercased address matches. -/
def getByAddress (address : String) : Option TokenMeta :=
  MAINNET_TOKENS.find? (fun token => strToLower token.address == strToLower address)

/-- Source `checkApprovalNeeded` (api/routes/aggregatorRoutes.ts):
native tokens never need approval; without a `userAddress` approval is
conservatively assumed needed; otherwise the on-chain `allowance` read
(passed here as an explicit `Except`, the chain boundary) decides, with any
read failure again assumed to need approval. -/
def checkApprovalNeeded (isNative : Bool) (userAddress : Option String)
    (allowanceResult : Except String Nat) (amountInParsed : Nat) : Bool :=
  if isNative then false
  else
    match userAddress with
    | none => true
    | some _ =>
      match allowanceResult with
      | .ok currentAllowance => currentAllowance < amountInParsed
      | .error _ => true

/-- Transaction block of a formatted quote, source the `transaction` object
built per quote in `POST /quote` (calldata bytes are an ABI-encoding
boundary and are not modelled; `from` is the constant placeholder). -/
structure QuoteTransaction where
  toAddress : String
  value : String
deriving DecidableEq

/-- Approval block of a formatted quote, source the `approval` object built
per quote in `POST /quote`. -/
structure ApprovalInfo where
  needed : Bool
  message : String
  token : Option String
  spender : Option String
  amount : Option String
deriving DecidableEq

/-- One entry of the `allQuotes` array in the `/api/aggregator/quote`
response body. -/
structure FormattedQuote where
  dex : DexKind
  dexName : String
  feeTier : Option Nat
  amountOutWei : String
  transaction : QuoteTransaction
  approval : ApprovalInfo
deriving DecidableEq

/-- Source `formattedQuotesPromises` (api/routes/aggregatorRoutes.ts lines
188-277): for each quote, choose the router by DEX kind, set
`quoteValueToSend` to the parsed input amount exactly in the native-input
branches (both the V3 `if (isNative)` and the V2 `swapExactETHForTokens`
branch) and leave it `'0'` otherwise, then attach the approval object —
when approval is needed its `token` field echoes the raw request `tokenIn`
string. -/
def formatQuoteForResponse (q : DexQuote) (tokenIn tokenOut tokenInSymbol : String)
    (userAddress : Option String) (allowanceResult : Except String Nat)
    (amountInParsed : Nat) (v2Router v3Router : String) : FormattedQuote :=
  let isNative := isNativeToken tokenIn
  let quoteRouterAddress := match q.dex with
    | .V3 => v3Router
    | .V2 => v2Router
  let quoteValueToSend := match q.dex with
    | .V3 => if isNative then toString amountInParsed else "0"
    | .V2 =>
      if isNative then toString amountInParsed
      else if isNativeToken tokenOut then "0"
      else "0"
  let needsApprovalForRoute := checkApprovalNeeded isNative userAddress allowanceResult amountInParsed
  { dex := q.dex
    dexName := q.dexName
    feeTier := q.feeTier
    amountOutWei := toString q.amountOut
    transaction := { toAddress := quoteRouterAddress, value := quoteValueToSend }
    approval :=
      if needsApprovalForRoute then
        { needed := true
          message := "Approval required for " ++ tokenInSymbol
          token := some tokenIn
          spender := some quoteRouterAddress
          amount := some (toString amountInParsed) }
      else
        { needed := false
          message := match userAddress with
            | some _ => tokenInSymbol ++ " already approved"
            | none => "No approval needed for native token"
          token := none
          spender := none
          amount := none } }

/-- C5: In every `/api/aggregator/quote` response, each quote whose
`tokenIn` is the native sentinel has `approval.needed = false` and
`transaction.value` equal to the parsed input amount, and each quote whose
`tokenIn` is non-native has `transaction.value = "0"`. -/
theorem quote_native_value_and_approval (q : DexQuote)
    (tokenIn tokenOut tokenInSymbol : String) (userAddress : Option String)
    (allowanceResult : Except String Nat) (amountInParsed : Nat)
    (v2Router v3Router : String) :
    (isNativeToken tokenIn = true →
      (formatQuoteForResponse q tokenIn tokenOut tokenInSymbol userAddress
          allowanceResult amountInParsed v2Router v3Router).approval.needed = false ∧
      (formatQuoteForResponse q tokenIn tokenOut tokenInSymbol userAddress
          allowanceResult amountInParsed v2Router v3Router).transaction.value =
        toString amountInParsed) ∧
    (isNativeToken tokenIn = false →
      (formatQuoteForResponse q tokenIn tokenOut tokenInSymbol userAddress
          allowanceResult amountInParsed v2Router v3Router).transaction.value = "0") := by
  constructor
  · intro hn
    simp only [formatQuoteForResponse, checkApprovalNeeded, hn, if_true]
    constructor
    · rfl
    · cases q.dex <;> rfl
  · intro hn
    simp only [formatQuoteForResponse, hn]
    cases q.dex
    · by_cases ho : isNativeToken tokenOut = true <;> simp [ho]
    · rfl

/-- Witness for C5: the native sentinel quote has `needed = false` and
`value = "5"`; the WBTC quote has `value = "0"`. -/
theorem quote_native_value_and_approval_witness :
    (formatQuoteForResponse sampleQuoteA NATIVE_TOKEN_ADDRESS
        "0xa16148c6Ac9EDe0D82f0c52899e22a575284f131" "DOT" none (.ok 0) 5
        "0xRouterV2" "0xRouterV3").approval.needed = false ∧
      (formatQuoteForResponse sampleQuoteA NATIVE_TOKEN_ADDRESS
        "0xa16148c6Ac9EDe0D82f0c52899e22a575284f131" "DOT" none (.ok 0) 5
        "0xRouterV2" "0xRouterV3").transaction.value = toString 5 ∧
      (formatQuoteForResponse sampleQuoteA
        "0xF8Eb4Ed0d4CF2bb707c0272F8C6827dEB6e4c0A9"
        "0xa16148c6Ac9EDe0D82f0c52899e22a575284f131" "WBTC" none (.ok 0) 5
        "0xRouterV2" "0xRouterV3").transaction.value = "0" := by
  refine ⟨?_, ?_, ?_⟩
  · exact (quote_native_value_and_approval sampleQuoteA NATIVE_TOKEN_ADDRESS
      "0xa16148c6Ac9EDe0D82f0c52899e22a575284f131" "DOT" none (.ok 0) 5
      "0xRouterV2" "0xRouterV3").1 (by decide) |>.1
  · exact (quote_native_value_and_approval sampleQuoteA NATIVE_TOKEN_ADDRESS
      "0xa16148c6Ac9EDe0D82f0c52899e22a575284f131" "DOT" none (.ok 0) 5
      "0xRouterV2" "0xRouterV3").1 (by decide) |>.2
  · exact (quote_native_value_and_approval sampleQuoteA
      "0xF8Eb4Ed0d4CF2bb707c0272F8C6827dEB6e4c0A9"
      "0xa16148c6Ac9EDe0D82f0c52899e22a575284f131" "WBTC" none (.ok 0) 5
      "0xRouterV2" "0xRouterV3").2 (by decide)

/-- Strips the raw-request echo field `approval.token` from a formatted
quote, isolating the case-dependent echo from the rest of the response
entry. -/
def maskApprovalToken (f : FormattedQuote) : FormattedQuote :=
  { f with approval := { f.approval with token := none } }

/-- Checksum-cased WBTC address exactly as in the registry. -/
def mixedCaseWbtc : String := "0xF8Eb4Ed0d4CF2bb707c0272F8C6827dEB6e4c0A9"

/-- The same address all-lowercase. -/
def lowerCaseWbtc : String := "0xf8eb4ed0d4cf2bb707c0272f8c6827deb6e4c0a9"

/-- C8 (counterexample): two `/quote` requests identical except for the
letter case of `tokenIn` produce different responses — when approval is
needed the `approval.token` field echoes the raw request string — and that
echoed address is not lowercase hex. -/
theorem address_case_leaks_into_response_counterexample :
    strToLower mixedCaseWbtc = lowerCaseWbtc ∧
      formatQuoteForResponse sampleQuoteA mixedCaseWbtc
          "0xa16148c6Ac9EDe0D82f0c52899e22a575284f131" "WBTC" none (.ok 0) 5
          "0xRouterV2" "0xRouterV3" ≠
        formatQuoteForResponse sampleQuoteA lowerCaseWbtc
          "0xa16148c6Ac9EDe0D82f0c52899e22a575284f131" "WBTC" none (.ok 0) 5
          "0xRouterV2" "0xRouterV3" ∧
      (formatQuoteForResponse sampleQuoteA mixedCaseWbtc
          "0xa16148c6Ac9EDe0D82f0c52899e22a575284f131" "WBTC" none (.ok 0) 5
          "0xRouterV2" "0xRouterV3").approval.token = some mixedCaseWbtc ∧
      mixedCaseWbtc ≠ strToLower mixedCaseWbtc := by
  exact ⟨by decide, by decide, by decide, by decide⟩

/-- C8 (amended): all comparisons and lookups are case-insensitive — the
native-sentinel test and the registry lookup agree on case-variants of an
address, and two requests differing only in the case of `tokenIn` produce
formatted quotes that agree on every field except the `approval.token`
echo of the raw request string (additionally, token addresses produced by
`validateAddress` are checksum-cased, not lowercase). -/
theorem address_case_insensitive_modulo_echo (q : DexQuote)
    (t1 t2 tokenOut tokenInSymbol : String) (userAddress : Option String)
    (allowanceResult : Except String Nat) (amountInParsed : Nat)
    (v2Router v3Router : String) (h : strToLower t1 = strToLower t2) :
    isNativeToken t1 = isNativeToken t2 ∧
      getByAddress t1 = getByAddress t2 ∧
      maskApprovalToken (formatQuoteForResponse q t1 tokenOut tokenInSymbol
          userAddress allowanceResult amountInParsed v2Router v3Router) =
        maskApprovalToken (formatQuoteForResponse q t2 tokenOut tokenInSymbol
          userAddress allowanceResult amountInParsed v2Router v3Router) := by
  have hn : isNativeToken t1 = isNativeToken t2 := by
    unfold isNativeToken
    rw [h]
  refine ⟨hn, ?_, ?_⟩
  · unfold getByAddress
    rw [h]
  · simp only [formatQuoteForResponse, hn]
    cases hB : checkApprovalNeeded (isNativeToken t2) userAddress allowanceResult
        amountInParsed <;>
      simp [maskApprovalToken]

/-- Witness for the amended C8 at the concrete checksum/lowercase pair. -/
theorem address_case_insensitive_modulo_echo_witness :
    getByAddress mixedCaseWbtc = getByAddress lowerCaseWbtc ∧
      maskApprovalToken (formatQuoteForResponse sampleQuoteA mixedCaseWbtc
          "0xa16148c6Ac9EDe0D82f0c52899e22a575284f131" "WBTC" none (.ok 0) 5
          "0xRouterV2" "0xRouterV3") =
        maskApprovalToken (formatQuoteForResponse sampleQuoteA lowerCaseWbtc
          "0xa16148c6Ac9EDe0D82f0c52899e22a575284f131" "WBTC" none (.ok 0) 5
          "0xRouterV2" "0xRouterV3") := by
  have := address_case_insensitive_modulo_echo sampleQuoteA mixedCaseWbtc lowerCaseWbtc
    "0xa16148c6Ac9EDe0D82f0c52899e22a575284f131" "WBTC" none (.ok 0) 5
    "0xRouterV2" "0xRouterV3" (by decide)
  exact ⟨this.2.1, this.2.2⟩

/-- Read issued through the chain reader, restricted to the ERC-20 calls
the engine makes (`name`, `symbol`, `decimals` in `getTokenInfo`;
`allowance` in `checkApprovalNeeded`). -/
inductive ChainCall
  | erc20Name (token : String)
  | erc20Symbol (token : String)
  | erc20Decimals (token : String)
  | erc20Allowance (token owner spender : String)
deriving DecidableEq

/-- Source `V2Service.getTokenInfo` (services/v2Service.ts) — identical in
`V3Service.getTokenInfo` — issues the three ERC-20 metadata reads against
the given token address. -/
def getTokenInfoCalls (tokenAddress : String) : List ChainCall :=
  [.erc20Name tokenAddress, .erc20Symbol tokenAddress, .erc20Decimals tokenAddress]

/-- Source `AggregatorService.getAggregatedQuote` (services/aggregatorService.ts):
before any quoting it resolves token metadata by calling
`firstAdapter.getTokenInfo(tokenInAddress)` and
`firstAdapter.getTokenInfo(tokenOutAddress)` unconditionally — there is no
native-sentinel check on this path (the first registered adapter is the V2
adapter, whose `getTokenInfo` delegates to `V2Service.getTokenInfo`). -/
def getAggregatedQuoteMetadataCalls (tokenIn tokenOut : String) : List ChainCall :=
  getTokenInfoCalls tokenIn ++ getTokenInfoCalls tokenOut

/-- Target address of an ERC-20 chain call. -/
def erc20CallTarget : ChainCall → String
  | .erc20Name t => t
  | .erc20Symbol t => t
  | .erc20Decimals t => t
  | .erc20Allowance t _ _ => t

/-- C6 (code bug): the claim says no ERC-20 call is ever issued against the
native sentinel, but with `tokenIn` equal to the sentinel (in its canonical
or lowercase spelling, both native under the case-insensitive test)
`getAggregatedQuote` issues `name`/`symbol`/`decimals` ERC-20 reads whose
target is the sentinel. -/
theorem aggregator_issues_erc20_calls_on_native_sentinel :
    isNativeToken NATIVE_TOKEN_ADDRESS = true ∧
      ChainCall.erc20Name NATIVE_TOKEN_ADDRESS ∈
        getAggregatedQuoteMetadataCalls NATIVE_TOKEN_ADDRESS
          "0xa16148c6Ac9EDe0D82f0c52899e22a575284f131" ∧
      ((getAggregatedQuoteMetadataCalls NATIVE_TOKEN_ADDRESS
          "0xa16148c6Ac9EDe0D82f0c52899e22a575284f131").filter
        (fun c => isNativeToken (erc20CallTarget c))).length = 3 ∧
      isNativeToken (strToLower NATIVE_TOKEN_ADDRESS) = true ∧
      ChainCall.erc20Decimals (strToLower NATIVE_TOKEN_ADDRESS) ∈
        getAggregatedQuoteMetadataCalls (strToLower NATIVE_TOKEN_ADDRESS)
          "0xa16148c6Ac9EDe0D82f0c52899e22a575284f131" := by
  exact ⟨by decide, by decide, by decide, by decide, by decide⟩

/-- Outcome of one `POST /api/aggregator/quote` request as it reaches the
response-writing code, source the route handler in
api/routes/aggregatorRoutes.ts: the three early validation returns, the
catch-all for any thrown error (carrying `error.message`), or success. -/
inductive QuoteRouteOutcome
  | success
  | missingParams
  | invalidSlippage
  | unknownTokenInDecimals
  | thrown (message : String)

/-- Source HTTP statuses of the quote route: the validation branches call
`res.status(400)`, the single `catch (error)` block calls `res.status(400)`
for every thrown error — no-liquidity, timeout-like and internal failures
alike — and the success path uses the Express default 200. -/
def quoteRouteStatus : QuoteRouteOutcome → Nat
  | .success => 200
  | .missingParams => 400
  | .invalidSlippage => 400
  | .unknownTokenInDecimals => 400
  | .thrown _ => 400

/-- C7 (counterexample): a deadline-exceeded error is answered with HTTP
400, not 504, and an internal failure with HTTP 400, not 500. -/
theorem quote_route_no_504_or_500_counterexample :
    quoteRouteStatus (.thrown "Request deadline exceeded") = 400 ∧
      quoteRouteStatus (.thrown "Request deadline exceeded") ≠ 504 ∧
      quoteRouteStatus (.thrown "Internal invariant violated") = 400 ∧
      quoteRouteStatus (.thrown "Internal invariant violated") ≠ 500 := by
  exact ⟨rfl, by decide, rfl, by decide⟩

/-- C7 (amended): the quote route maps every error to HTTP 400 — invalid
input, unknown token and no-liquidity as the claim states, but also every
other thrown error including deadline and internal failures; the route has
no 504 or 500 mapping (and no request-level deadline exists at all). -/
theorem quote_route_all_errors_400 (msg : String) :
    quoteRouteStatus .missingParams = 400 ∧
      quoteRouteStatus .invalidSlippage = 400 ∧
      quoteRouteStatus .unknownTokenInDecimals = 400 ∧
      quoteRouteStatus (.thrown "No liquidity found for this token pair on any DEX") = 400 ∧
      quoteRouteStatus (.thrown msg) = 400 :=
  ⟨rfl, rfl, rfl, rfl, rfl⟩

/-- Decimal digit to its ASCII character. -/
def digitChar (n : Nat) : Char := Char.ofNat (48 + n)

/-- ASCII character to decimal digit, `none` on non-digits. -/
def charToDigit? (c : Char) : Option Nat :=
  if 48 ≤ c.toNat ∧ c.toNat ≤ 57 then some (c.toNat - 48) else none

/-- Value of a big-endian decimal digit list. -/
def ofDigitsBE (l : List Nat) : Nat := Nat.ofDigits 10 l.reverse

/-- Fuel-structured big-endian decimal digit extraction, mirroring
`BigInt.prototype.toString` / repeated division by ten. -/
def natDigitsBEAux : Nat → Nat → List Nat → List Nat
  | 0, _, acc => acc
  | fuel + 1, n, acc =>
    let d := n % 10
    let n2 := n / 10
    if n2 = 0 then d :: acc else natDigitsBEAux fuel n2 (d :: acc)

/-- Big-endian decimal digits of a natural number (`[0]` for zero). -/
def natDigitsBE (n : Nat) : List Nat := natDigitsBEAux (n + 1) n []

/-- Decimal string of a natural number, the model of JavaScript number and
`BigInt` `toString`. -/
def natToDec (n : Nat) : String := String.mk ((natDigitsBE n).map digitChar)

/-- Parses a character list of decimal digits, `none` if any is not a
digit. -/
def parseDigits (cs : List Char) : Option (List Nat) := cs.mapM charToDigit?

/-- Model of the destructuring `let [integer, fraction = '0'] =
value.split('.')` used by viem `parseUnits`: everything before the first
dot, and (when a dot exists) the segment between the first and second
dots. -/
def splitOnDot (cs : List Char) : List Char × Option (List Char) :=
  match cs.span (fun c => c != '.') with
  | (intPart, []) => (intPart, none)
  | (intPart, _ :: rest) => (intPart, some (rest.takeWhile (fun c => c != '.')))

/-- Removes trailing zero digits, the model of
`fraction.replace(/(0+)$/, '')` in viem `parseUnits`. -/
def trimTrailingZeros (l : List Nat) : List Nat :=
  (l.reverse.dropWhile (fun d => d == 0)).reverse

/-- Source `parseTokenAmount` (utils/formatting.ts), which delegates to viem
`parseUnits(amount, decimals)`: split on the decimal point (a missing
fraction defaults to zero), trim the fraction's trailing zeros, then either
pad the fraction to `decimals` digits or — when it is longer — round
half-up at digit `decimals` (viem rounds through a float of the cut-off
tail; modelled as exact half-up rounding), and read the concatenation of
integer part and fraction as the integer result.  Malformed input makes
`BigInt(...)` throw, modelled by `none`. -/
def parseTokenAmount (amount : String) (decimals : Nat) : Option Nat :=
  let (intChars, fracChars) := splitOnDot amount.data
  match parseDigits intChars, parseDigits (fracChars.getD []) with
  | some intDigits, some fracDigits =>
    let fracTrimmed := trimTrailingZeros fracDigits
    if fracTrimmed.length ≤ decimals then
      some (ofDigitsBE intDigits * 10 ^ decimals +
        ofDigitsBE fracTrimmed * 10 ^ (decimals - fracTrimmed.length))
    else
      let keep := ofDigitsBE (fracTrimmed.take decimals)
      let rest := ofDigitsBE (fracTrimmed.drop decimals)
      let base := 10 ^ (fracTrimmed.length - decimals)
      some (ofDigitsBE intDigits * 10 ^ decimals +
        (if base ≤ rest * 2 then keep + 1 else keep))
  | _, _ => none

/-- Pads a numeric string on the left with zeros to length `k`. -/
def padLeftZeros (s : String) (k : Nat) : String :=
  String.mk (List.replicate (k - s.length) '0') ++ s

/-- Model of JavaScript `Number.prototype.toFixed` on non-negative values:
round half-up to `k` fractional digits and render with exactly `k` digits
after the point (no point at all when `k = 0`). -/
def toFixedQ (q : ℚ) (k : Nat) : String :=
  let m := (⌊q * 10 ^ k + 1 / 2⌋).toNat
  if k = 0 then natToDec m
  else natToDec (m / 10 ^ k) ++ "." ++ padLeftZeros (natToDec (m % 10 ^ k)) k

/-- Model of JavaScript `Number.prototype.toExponential` for values in
`(0, 1)`: find the exponent `e` with `q·10^e ∈ [1, 10)`, round the mantissa
half-up to `fd` fractional digits (bumping the exponent when rounding
reaches 10), and render as `d.dddde-k`. -/
def toExponentialModel (q : ℚ) (fd : Nat) : String :=
  let bound := (Nat.digits 10 q.den).length + 1
  let e := ((List.range bound).find? (fun n => decide (1 ≤ q * 10 ^ n))).getD bound
  let dv := (⌊q * 10 ^ e * 10 ^ fd + 1 / 2⌋).toNat
  let (dv, e) := if dv = 10 ^ (fd + 1) then (10 ^ fd, e - 1) else (dv, e)
  natToDec (dv / 10 ^ fd) ++ "." ++ padLeftZeros (natToDec (dv % 10 ^ fd)) fd ++
    "e-" ++ natToDec e

/-- Source `formatTokenAmount` (utils/formatting.ts).  The composite
`parseFloat(formatUnits(amount, decimals))` produces exactly
`amount / 10^decimals`, modelled as that exact rational (JavaScript doubles
round only beyond 15 significant digits).  The branches follow the source:
`num === 0` prints `"0"`, `num < 0.000001` prints the 4-digit exponential
form, otherwise `num.toFixed(Math.min(maxDecimals, decimals))` with the
default `maxDecimals = 6`, the only mode the API uses. -/
def formatTokenAmount (amount : Nat) (decimals : Nat) : String :=
  let num : ℚ := (amount : ℚ) / 10 ^ decimals
  if num = 0 then "0"
  else if num < 1 / 1000000 then toExponentialModel num 4
  else toFixedQ num (min 6 decimals)

/-- C9 (counterexample): the string `"1"` has no superfluous zeros and at
most 18 fractional digits, yet
`formatTokenAmount (parseTokenAmount "1" 18) 18 = "1.000000" ≠ "1"` —
`formatTokenAmount` always renders `min 6 decimals` fractional digits. -/
theorem format_parse_roundtrip_counterexample :
    parseTokenAmount "1" 18 = some (10 ^ 18) ∧
      formatTokenAmount (10 ^ 18) 18 = "1.000000" ∧
      ("1.000000" : String) ≠ "1" := by
  refine ⟨by with_unfolding_all rfl, by with_unfolding_all rfl, by decide⟩

lemma strMk_append (a b : List Char) : String.mk a ++ String.mk b = String.mk (a ++ b) := rfl

lemma strMk_length (a : List Char) : (String.mk a).length = a.length := rfl

lemma digitChar_zero : digitChar 0 = '0' := rfl

lemma digitChar_ne_dot (x : Nat) (h : x < 10) : (digitChar x != '.') = true := by
  interval_cases x <;> decide

lemma charToDigit?_digitChar (x : Nat) (h : x < 10) : charToDigit? (digitChar x) = some x := by
  interval_cases x <;> decide

lemma parseDigits_map_digitChar (L : List Nat) (h : ∀ x ∈ L, x < 10) :
    parseDigits (L.map digitChar) = some L := by
  induction L with
  | nil => rfl
  | cons a l ih =>
    have ha : a < 10 := h a (List.mem_cons_self _ _)
    have hl : ∀ x ∈ l, x < 10 := fun x hx => h x (List.mem_cons_of_mem _ hx)
    simp only [parseDigits, List.map_cons, List.mapM_cons] at ih ⊢
    rw [charToDigit?_digitChar a ha, ih hl]
    rfl

lemma natDigitsBEAux_eq : ∀ (fuel n : Nat) (acc : List Nat), n ≠ 0 → n ≤ fuel →
    natDigitsBEAux fuel n acc = (Nat.digits 10 n).reverse ++ acc := by
  intro fuel
  induction fuel with
  | zero =>
    intro n acc hn hle
    omega
  | succ fuel ih =>
    intro n acc hn hle
    by_cases h10 : n / 10 = 0
    · simp only [natDigitsBEAux, h10, if_true]
      rw [Nat.digits_def' (by norm_num : (1:ℕ) < 10) (Nat.pos_of_ne_zero hn), h10]
      simp
    · simp only [natDigitsBEAux, h10, if_false]
      have hdiv : n / 10 < n := Nat.div_lt_self (Nat.pos_of_ne_zero hn) (by norm_num)
      rw [ih (n / 10) ((n % 10) :: acc) h10 (by omega)]
      rw [Nat.digits_def' (by norm_num : (1:ℕ) < 10) (Nat.pos_of_ne_zero hn)]
      simp

lemma natDigitsBE_eq (n : Nat) (hn : n ≠ 0) : natDigitsBE n = (Nat.digits 10 n).reverse := by
  unfold natDigitsBE
  rw [natDigitsBEAux_eq (n + 1) n [] hn (by omega)]
  simp

lemma natDigitsBE_ofDigitsBE (L : List Nat) (h10 : ∀ x ∈ L, x < 10)
    (hne : L ≠ []) (hhead : L.head? ≠ some 0) :
    natDigitsBE (ofDigitsBE L) = L := by
  have hrev10 : ∀ x ∈ L.reverse, x < 10 := fun x hx => h10 x (List.mem_reverse.mp hx)
  have hlast : ∀ (h : L.reverse ≠ []), L.reverse.getLast h ≠ 0 := by
    intro h hz
    have h1 : L.reverse.getLast? = some 0 := by
      rw [List.getLast?_eq_getLast L.reverse h, hz]
    have h2 : L.reverse.getLast? = L.head? := by
      have h3 := List.head?_reverse L.reverse
      rw [List.reverse_reverse] at h3
      exact h3.symm
    rw [h2] at h1
    exact hhead h1
  have hdig : Nat.digits 10 (Nat.ofDigits 10 L.reverse) = L.reverse :=
    Nat.digits_ofDigits 10 (by norm_num) L.reverse hrev10 hlast
  have hzero : ofDigitsBE L ≠ 0 := by
    intro h0
    have h4 : Nat.digits 10 (Nat.ofDigits 10 L.reverse) = [] := by
      rw [show Nat.ofDigits 10 L.reverse = ofDigitsBE L from rfl, h0]
      simp
    rw [hdig] at h4
    exact hne (by simpa using h4)
  rw [natDigitsBE_eq _ hzero]
  show (Nat.digits 10 (Nat.ofDigits 10 L.reverse)).reverse = L
  rw [hdig, List.reverse_reverse]

lemma natToDec_ofDigitsBE (L : List Nat) (h10 : ∀ x ∈ L, x < 10)
    (hne : L ≠ []) (hhead : L.head? ≠ some 0) :
    natToDec (ofDigitsBE L) = String.mk (L.map digitChar) := by
  unfold natToDec
  rw [natDigitsBE_ofDigitsBE L h10 hne hhead]

lemma head_dropWhile_false {α : Type} (p : α → Bool) :
    ∀ (l : List α) (a : α) (rest : List α), l.dropWhile p = a :: rest → p a = false := by
  intro l
  induction l with
  | nil =>
    intro a rest h
    simp at h
  | cons b l ih =>
    intro a rest h
    rw [List.dropWhile_cons] at h
    by_cases hb : p b = true
    · rw [if_pos hb] at h
      exact ih a rest h
    · rw [if_neg hb] at h
      cases h
      simpa using hb

lemma takeWhile_eq_self_of_all {α : Type} (p : α → Bool) :
    ∀ (l : List α), (∀ a ∈ l, p a = true) → l.takeWhile p = l := by
  intro l
  induction l with
  | nil => intro _; rfl
  | cons b l ih =>
    intro h
    rw [List.takeWhile_cons, if_pos (h b (List.mem_cons_self _ _))]
    rw [ih (fun a ha => h a (List.mem_cons_of_mem _ ha))]

lemma dropWhile_append_of_all {α : Type} (p : α → Bool) :
    ∀ (A B : List α), (∀ a ∈ A, p a = true) →
      (B = [] ∨ ∃ b rest, B = b :: rest ∧ p b = false) →
      (A ++ B).dropWhile p = B := by
  intro A
  induction A with
  | nil =>
    intro B _ hB
    rcases hB with rfl | ⟨b, rest, rfl, hb⟩
    · rfl
    · simp [List.dropWhile_cons, hb]
  | cons a A ih =>
    intro B hA hB
    rw [List.cons_append, List.dropWhile_cons, if_pos (hA a (List.mem_cons_self _ _))]
    exact ih B (fun x hx => hA x (List.mem_cons_of_mem _ hx)) hB

lemma takeWhile_append_of_all {α : Type} (p : α → Bool) :
    ∀ (A B : List α), (∀ a ∈ A, p a = true) →
      (B = [] ∨ ∃ b rest, B = b :: rest ∧ p b = false) →
      (A ++ B).takeWhile p = A := by
  intro A
  induction A with
  | nil =>
    intro B _ hB
    rcases hB with rfl | ⟨b, rest, rfl, hb⟩
    · rfl
    · simp [List.takeWhile_cons, hb]
  | cons a A ih =>
    intro B hA hB
    rw [List.cons_append, List.takeWhile_cons, if_pos (hA a (List.mem_cons_self _ _))]
    rw [ih B (fun x hx => hA x (List.mem_cons_of_mem _ hx)) hB]

lemma trimTrailingZeros_self (df : List Nat) (h : df.getLast? ≠ some 0) :
    trimTrailingZeros df = df := by
  unfold trimTrailingZeros
  cases hrev : df.reverse with
  | nil =>
    rw [List.reverse_eq_nil_iff.mp hrev]
    rfl
  | cons a rest =>
    have hhead : df.reverse.head? = some a := by rw [hrev]; rfl
    have hlast : df.getLast? = some a := by rw [← List.head?_reverse]; exact hhead
    have ha : a ≠ 0 := fun h0 => h (h0 ▸ hlast)
    rw [List.dropWhile_cons, if_neg (by simpa using ha), ← hrev, List.reverse_reverse]

lemma ofDigits_replicate_zero (z : Nat) : Nat.ofDigits 10 (List.replicate z 0) = 0 := by
  induction z with
  | zero => rfl
  | succ z ih =>
    rw [List.replicate_succ, Nat.ofDigits_cons, ih]

lemma ofDigitsBE_append_replicate_zero (df : List Nat) (z : Nat) :
    ofDigitsBE (df ++ List.replicate z 0) = ofDigitsBE df * 10 ^ z := by
  unfold ofDigitsBE
  rw [List.reverse_append, List.reverse_replicate, Nat.ofDigits_append,
    ofDigits_replicate_zero, List.length_replicate]
  ring

lemma padLeft_natToDec_ofDigitsBE (L : List Nat) (h10 : ∀ x ∈ L, x < 10) (hne : L ≠ []) :
    padLeftZeros (natToDec (ofDigitsBE L)) L.length = String.mk (L.map digitChar) := by
  have hsplit : L.takeWhile (fun d => d == 0) ++ L.dropWhile (fun d => d == 0) = L :=
    List.takeWhile_append_dropWhile _ L
  have hZrep : L.takeWhile (fun d => d == 0) =
      List.replicate (L.takeWhile (fun d => d == 0)).length 0 := by
    refine List.eq_replicate_iff.mpr ⟨rfl, ?_⟩
    intro b hb
    simpa using List.mem_takeWhile_imp hb
  have hvalZ : ofDigitsBE L = ofDigitsBE (L.dropWhile (fun d => d == 0)) := by
    unfold ofDigitsBE
    conv_lhs => rw [← hsplit]
    rw [List.reverse_append, Nat.ofDigits_append]
    conv_lhs => rw [hZrep]
    rw [List.reverse_replicate, ofDigits_replicate_zero]
    ring
  cases hR : L.dropWhile (fun d => d == 0) with
  | nil =>
    have hLrep : L = List.replicate L.length 0 := by
      conv_lhs => rw [← hsplit, hR, List.append_nil]
      rw [hZrep]
      congr 1
      conv_rhs => rw [← hsplit, hR, List.append_nil]
  
    have hval0 : ofDigitsBE L = 0 := by
      rw [hvalZ, hR]
      rfl
    rw [hval0]
    have hn1 : natToDec 0 = "0" := rfl
    rw [hn1]
    unfold padLeftZeros
    have hlen0 : ("0" : String).length = 1 := rfl
    rw [hlen0]
    have hpos : 1 ≤ L.length := by
      cases L with
      | nil => exact absurd rfl hne
      | cons a l => simp
    have h02 : ("0" : String) = String.mk ['0'] := rfl
    rw [h02, strMk_append]
    conv_rhs => rw [hLrep]
    rw [List.map_replicate, digitChar_zero]
    congr 1
    rw [show ['0'] = List.replicate 1 '0' from rfl, ← List.replicate_add]
    congr 1
    omega
  | cons a rest =>
    have ha0 : ((a : Nat) == 0) = false := head_dropWhile_false _ L a rest hR
    have haneq : a ≠ 0 := by simpa using ha0
    have hmemR : ∀ x ∈ L.dropWhile (fun d => d == 0), x ∈ L := by
      intro x hx
      have h5 : x ∈ L.takeWhile (fun d => d == 0) ++ L.dropWhile (fun d => d == 0) :=
        List.mem_append_right _ hx
      rw [hsplit] at h5
      exact h5
    have hR10 : ∀ x ∈ (a :: rest : List Nat), x < 10 := by
      intro x hx
      exact h10 x (hmemR x (hR ▸ hx))
    have hRne : (a :: rest : List Nat) ≠ [] := by simp
    have hRhead : (a :: rest : List Nat).head? ≠ some 0 := by simpa using haneq
    have hnd : natToDec (ofDigitsBE (a :: rest)) = String.mk ((a :: rest).map digitChar) :=
      natToDec_ofDigitsBE _ hR10 hRne hRhead
    rw [hvalZ, hR, hnd]
    unfold padLeftZeros
    rw [strMk_length, List.length_map, strMk_append]
    have hLsplit : L = List.replicate (L.takeWhile (fun d => d == 0)).length 0 ++ a :: rest := by
      rw [← hZrep, ← hR, hsplit]
    conv_rhs => rw [hLsplit]
    rw [List.map_append, List.map_replicate, digitChar_zero]
    have hLlen : L.length = (L.takeWhile (fun d => d == 0)).length + (a :: rest).length := by
      conv_lhs => rw [← hsplit]
      rw [hR, List.length_append]
    have hsub : L.length - (a :: rest).length = (L.takeWhile (fun d => d == 0)).length := by
      omega
    rw [hsub]

lemma dropWhile_eq_nil_of_all {α : Type} (p : α → Bool) :
    ∀ (l : List α), (∀ a ∈ l, p a = true) → l.dropWhile p = [] := by
  intro l
  induction l with
  | nil => intro _; rfl
  | cons b l ih =>
    intro h
    rw [List.dropWhile_cons, if_pos (h b (List.mem_cons_self _ _))]
    exact ih (fun a ha => h a (List.mem_cons_of_mem _ ha))

/-- A decimal string assembled from big-endian integer digits and fraction
digits: the canonical form (no leading zeros in `di` except `"0"` itself,
no trailing zeros in `df`) ranges exactly over the decimal strings with no
superfluous zeros that the claim quantifies over. -/
def decimalString (di df : List Nat) : String :=
  String.mk (di.map digitChar) ++
    (match df with
     | [] => ""
     | _ :: _ => "." ++ String.mk (df.map digitChar))

/-- The same decimal value rendered with exactly `k` fractional digits
(`df` padded with trailing zeros; no point when `k = 0`). -/
def paddedDecimalString (di df : List Nat) (k : Nat) : String :=
  if k = 0 then String.mk (di.map digitChar)
  else String.mk (di.map digitChar) ++ "." ++ String.mk (df.map digitChar) ++
    String.mk (List.replicate (k - df.length) '0')

lemma splitOnDot_decimalString_nil (di : List Nat) (hdi10 : ∀ x ∈ di, x < 10) :
    splitOnDot (decimalString di []).data = (di.map digitChar, none) := by
  have hdiA : ∀ c ∈ di.map digitChar, (c != '.') = true := by
    intro c hc
    rcases List.mem_map.mp hc with ⟨x, hx, rfl⟩
    exact digitChar_ne_dot x (hdi10 x hx)
  have hdata : (decimalString di []).data = di.map digitChar := by
    show (String.mk (di.map digitChar) ++ "").data = di.map digitChar
    rw [show ("" : String) = String.mk [] from rfl, strMk_append, List.append_nil]
  rw [hdata]
  unfold splitOnDot
  rw [List.span_eq_take_drop, takeWhile_eq_self_of_all _ _ hdiA,
    dropWhile_eq_nil_of_all _ _ hdiA]

lemma splitOnDot_decimalString_cons (di : List Nat) (b : Nat) (bs : List Nat)
    (hdi10 : ∀ x ∈ di, x < 10) (hdf10 : ∀ x ∈ b :: bs, x < 10) :
    splitOnDot (decimalString di (b :: bs)).data =
      (di.map digitChar, some ((b :: bs).map digitChar)) := by
  have hdiA : ∀ c ∈ di.map digitChar, (c != '.') = true := by
    intro c hc
    rcases List.mem_map.mp hc with ⟨x, hx, rfl⟩
    exact digitChar_ne_dot x (hdi10 x hx)
  have hdfA : ∀ c ∈ (b :: bs).map digitChar, (c != '.') = true := by
    intro c hc
    rcases List.mem_map.mp hc with ⟨x, hx, rfl⟩
    exact digitChar_ne_dot x (hdf10 x hx)
  have hdata : (decimalString di (b :: bs)).data =
      di.map digitChar ++ '.' :: (b :: bs).map digitChar := by
    show (String.mk (di.map digitChar) ++ ("." ++ String.mk ((b :: bs).map digitChar))).data =
      di.map digitChar ++ '.' :: (b :: bs).map digitChar
    rw [show ("." : String) = String.mk ['.'] from rfl, strMk_append, strMk_append]
    rfl
  rw [hdata]
  unfold splitOnDot
  have hdot : (('.' :: (b :: bs).map digitChar : List Char) = [] ∨
      ∃ c rest, ('.' :: (b :: bs).map digitChar : List Char) = c :: rest ∧ (c != '.') = false) :=
    Or.inr ⟨'.', (b :: bs).map digitChar, rfl, by decide⟩
  rw [List.span_eq_take_drop, takeWhile_append_of_all _ _ _ hdiA hdot,
    dropWhile_append_of_all _ _ _ hdiA hdot]
  show (di.map digitChar,
      some (((b :: bs).map digitChar).takeWhile (fun c => c != '.'))) = _
  rw [takeWhile_eq_self_of_all _ _ hdfA]

lemma parseTokenAmount_decimalString (di df : List Nat) (d : Nat)
    (hdi10 : ∀ x ∈ di, x < 10) (hdf10 : ∀ x ∈ df, x < 10)
    (htrail : df.getLast? ≠ some 0) (hfd : df.length ≤ d) :
    parseTokenAmount (decimalString di df) d =
      some (ofDigitsBE di * 10 ^ d + ofDigitsBE df * 10 ^ (d - df.length)) := by
  cases df with
  | nil =>
    unfold parseTokenAmount
    rw [splitOnDot_decimalString_nil di hdi10]
    simp only [Option.getD_none]
    rw [parseDigits_map_digitChar di hdi10]
    show (if (trimTrailingZeros []).length ≤ d then
        some (ofDigitsBE di * 10 ^ d +
          ofDigitsBE (trimTrailingZeros []) * 10 ^ (d - (trimTrailingZeros []).length))
      else _) = _
    rw [show trimTrailingZeros [] = [] from rfl]
    rw [if_pos (by simp)]
  | cons b bs =>
    unfold parseTokenAmount
    rw [splitOnDot_decimalString_cons di b bs hdi10 hdf10]
    simp only [Option.getD_some]
    rw [parseDigits_map_digitChar di hdi10, parseDigits_map_digitChar (b :: bs) hdf10]
    show (if (trimTrailingZeros (b :: bs)).length ≤ d then
        some (ofDigitsBE di * 10 ^ d +
          ofDigitsBE (trimTrailingZeros (b :: bs)) * 10 ^ (d - (trimTrailingZeros (b :: bs)).length))
      else _) = _
    rw [trimTrailingZeros_self (b :: bs) htrail, if_pos hfd]

lemma formatTokenAmount_eq_toFixed (N d : Nat) (hv : 10 ^ d ≤ N * 1000000) :
    formatTokenAmount N d = toFixedQ ((N : ℚ) / 10 ^ d) (min 6 d) := by
  unfold formatTokenAmount
  have hN0 : 0 < N := by
    rcases Nat.eq_zero_or_pos N with h0 | h0
    · rw [h0] at hv
      have : (0 : ℕ) < 10 ^ d := pow_pos (by norm_num) d
      omega
    · exact h0
  have hNq : (0 : ℚ) < (N : ℚ) := by exact_mod_cast hN0
  have hnum0 : ((N : ℚ) / 10 ^ d) ≠ 0 := by positivity
  have hge : (1 : ℚ) / 1000000 ≤ (N : ℚ) / 10 ^ d := by
    rw [div_le_div_iff₀ (by norm_num) (by positivity)]
    have : ((10 : ℚ) ^ d) ≤ (N : ℚ) * 1000000 := by exact_mod_cast hv
    calc (1 : ℚ) * 10 ^ d = 10 ^ d := one_mul _
      _ ≤ (N : ℚ) * 1000000 := this
  rw [if_neg hnum0, if_neg (not_lt.mpr hge)]

lemma toFixedQ_int_value (N M d k : Nat) (hNM : N * 10 ^ k = M * 10 ^ d) :
    toFixedQ ((N : ℚ) / 10 ^ d) k =
      if k = 0 then natToDec M
      else natToDec (M / 10 ^ k) ++ "." ++ padLeftZeros (natToDec (M % 10 ^ k)) k := by
  unfold toFixedQ
  have hcast : ((N : ℚ)) * 10 ^ k = ((M : ℚ)) * 10 ^ d := by exact_mod_cast hNM
  have hq : ((N : ℚ) / 10 ^ d) * 10 ^ k = (M : ℚ) := by
    rw [div_mul_eq_mul_div, hcast, mul_div_assoc,
      div_self (by positivity : ((10 : ℚ) ^ d) ≠ 0), mul_one]
  rw [hq]
  have hfloor : ⌊(M : ℚ) + 1 / 2⌋ = (M : Int) := by
    rw [show ((M : ℚ) + 1 / 2) = 1 / 2 + ((M : Int) : ℚ) by push_cast; ring,
      Int.floor_add_int]
    norm_num
  rw [hfloor, Int.toNat_natCast]

lemma scale_identity (I F f d k : Nat) (hfd : f ≤ d) (hfk : f ≤ k) :
    (I * 10 ^ d + F * 10 ^ (d - f)) * 10 ^ k = (I * 10 ^ k + F * 10 ^ (k - f)) * 10 ^ d := by
  have h1 : (10 : ℕ) ^ (d - f) * 10 ^ k = 10 ^ (k - f) * 10 ^ d := by
    rw [← pow_add, ← pow_add]
    congr 1
    omega
  calc (I * 10 ^ d + F * 10 ^ (d - f)) * 10 ^ k
      = I * (10 ^ d * 10 ^ k) + F * (10 ^ (d - f) * 10 ^ k) := by ring
    _ = I * (10 ^ d * 10 ^ k) + F * (10 ^ (k - f) * 10 ^ d) := by rw [h1]
    _ = (I * 10 ^ k + F * 10 ^ (k - f)) * 10 ^ d := by ring

lemma int_frac_div_mod (I F f k : Nat) (hF : F < 10 ^ f) (hfk : f ≤ k) :
    (I * 10 ^ k + F * 10 ^ (k - f)) / 10 ^ k = I ∧
      (I * 10 ^ k + F * 10 ^ (k - f)) % 10 ^ k = F * 10 ^ (k - f) := by
  have hr : F * 10 ^ (k - f) < 10 ^ k := by
    calc F * 10 ^ (k - f) < 10 ^ f * 10 ^ (k - f) :=
          Nat.mul_lt_mul_of_lt_of_le hF (le_refl _) (pow_pos (by norm_num) _)
      _ = 10 ^ k := by
          rw [← pow_add]
          congr 1
          omega
  constructor
  · rw [Nat.mul_comm I (10 ^ k), Nat.mul_add_div (pow_pos (by norm_num) k),
      Nat.div_eq_of_lt hr, Nat.add_zero]
  · rw [Nat.mul_comm I (10 ^ k), Nat.mul_add_mod, Nat.mod_eq_of_lt hr]

lemma natToDec_int_part (di : List Nat) (h10 : ∀ x ∈ di, x < 10) (hne : di ≠ [])
    (hlead : di.head? = some 0 → di = [0]) :
    natToDec (ofDigitsBE di) = String.mk (di.map digitChar) := by
  by_cases h0 : di.head? = some 0
  · rw [hlead h0]
    rfl
  · exact natToDec_ofDigitsBE di h10 hne h0

/-- C9 (amended): for a decimal string with no superfluous zeros (canonical
integer digits `di`, fraction digits `df` without trailing zeros), at most
`min 6 d` fractional digits and value at least `10^-6`, the roundtrip
`formatTokenAmount (parseTokenAmount s d) d` returns the value rendered
with exactly `min 6 d` fractional digits — `s` padded with trailing zeros —
so it equals `s` itself exactly when `s` already carries `min 6 d`
fractional digits.  (The original claim fails because of this padding.) -/
theorem format_parse_renders_min6_decimals
    (di df : List Nat) (d : Nat)
    (hdi10 : ∀ x ∈ di, x < 10) (hdf10 : ∀ x ∈ df, x < 10)
    (hdine : di ≠ []) (hlead : di.head? = some 0 → di = [0])
    (htrail : df.getLast? ≠ some 0)
    (hf : df.length ≤ min 6 d)
    (hv : 10 ^ d ≤ (ofDigitsBE di * 10 ^ d + ofDigitsBE df * 10 ^ (d - df.length)) * 1000000) :
    parseTokenAmount (decimalString di df) d =
        some (ofDigitsBE di * 10 ^ d + ofDigitsBE df * 10 ^ (d - df.length)) ∧
      formatTokenAmount (ofDigitsBE di * 10 ^ d + ofDigitsBE df * 10 ^ (d - df.length)) d =
        paddedDecimalString di df (min 6 d) := by
  have hfd : df.length ≤ d := le_trans hf (min_le_right 6 d)
  constructor
  · exact parseTokenAmount_decimalString di df d hdi10 hdf10 htrail hfd
  · rw [formatTokenAmount_eq_toFixed _ d hv,
      toFixedQ_int_value _
        (ofDigitsBE di * 10 ^ min 6 d + ofDigitsBE df * 10 ^ (min 6 d - df.length)) d (min 6 d)
        (scale_identity (ofDigitsBE di) (ofDigitsBE df) df.length d (min 6 d) hfd hf)]
    by_cases hk : min 6 d = 0
    · rw [if_pos hk]
      unfold paddedDecimalString
      rw [if_pos hk]
      have hdfnil : df = [] := List.length_eq_zero.mp (by omega)
      subst hdfnil
      have hM : ofDigitsBE di * 10 ^ min 6 d +
          ofDigitsBE ([] : List Nat) * 10 ^ (min 6 d - ([] : List Nat).length) =
            ofDigitsBE di := by
        simp [hk, ofDigitsBE]
      rw [hM]
      exact natToDec_int_part di hdi10 hdine hlead
    · rw [if_neg hk]
      unfold paddedDecimalString
      rw [if_neg hk]
      have hF : ofDigitsBE df < 10 ^ df.length := by
        unfold ofDigitsBE
        calc Nat.ofDigits 10 df.reverse < 10 ^ df.reverse.length :=
              Nat.ofDigits_lt_base_pow_length (by norm_num)
                (fun x hx => hdf10 x (List.mem_reverse.mp hx))
          _ = 10 ^ df.length := by rw [List.length_reverse]
      obtain ⟨hdiv, hmod⟩ :=
        int_frac_div_mod (ofDigitsBE di) (ofDigitsBE df) df.length (min 6 d) hF hf
      rw [hdiv, hmod, natToDec_int_part di hdi10 hdine hlead]
      have hL10 : ∀ x ∈ df ++ List.replicate (min 6 d - df.length) 0, x < 10 := by
        intro x hx
        rcases List.mem_append.mp hx with h1 | h1
        · exact hdf10 x h1
        · have := List.eq_of_mem_replicate h1
          omega
      have hLlen : (df ++ List.replicate (min 6 d - df.length) 0).length = min 6 d := by
        rw [List.length_append, List.length_replicate]
        omega
      have hLne : df ++ List.replicate (min 6 d - df.length) 0 ≠ [] := by
        intro hnil
        have hlen := congrArg List.length hnil
        rw [hLlen] at hlen
        exact hk (by simpa using hlen)
      have hpad := padLeft_natToDec_ofDigitsBE
        (df ++ List.replicate (min 6 d - df.length) 0) hL10 hLne
      rw [hLlen] at hpad
      rw [show ofDigitsBE df * 10 ^ (min 6 d - df.length) =
          ofDigitsBE (df ++ List.replicate (min 6 d - df.length) 0) from
        (ofDigitsBE_append_replicate_zero df _).symm]
      rw [hpad, List.map_append, List.map_replicate, digitChar_zero]
      rw [show ("." : String) = String.mk ['.'] from rfl]
      simp only [strMk_append, List.append_assoc]

/-- Witness for the amended C9 at `s = "1.5"`, `d = 18`: the roundtrip
returns the padded rendering `"1.500000"`. -/
theorem format_parse_renders_min6_decimals_witness :
    decimalString [1] [5] = "1.5" ∧
      paddedDecimalString [1] [5] (min 6 18) = "1.500000" ∧
      (parseTokenAmount (decimalString [1] [5]) 18 =
          some (ofDigitsBE [1] * 10 ^ 18 +
            ofDigitsBE [5] * 10 ^ (18 - ([5] : List Nat).length)) ∧
        formatTokenAmount (ofDigitsBE [1] * 10 ^ 18 +
            ofDigitsBE [5] * 10 ^ (18 - ([5] : List Nat).length)) 18 =
          paddedDecimalString [1] [5] (min 6 18)) :=
  ⟨by decide, by decide,
   format_parse_renders_min6_decimals [1] [5] 18 (by decide) (by decide) (by decide)
     (by decide) (by decide) (by decide) (by decide)⟩
